import Mathlib

/-!
Verification of the CppTrader order book core
(`src/include/trader/matching/order_book.inl`).

Prices are 64-bit unsigned integers in the source; we model them as `Nat`
with the explicit sentinel `UINT64_MAX = 2 ^ 64 - 1` where the code uses
`std::numeric_limits<uint64_t>::max()`.  Every arithmetic operation the
embedded code performs (`std::max`, `std::min`, comparisons, assignments)
is overflow-free, so no `% 2 ^ 64` reduction is needed.

The six `Levels` containers (`CppCommon::BinTreeAVL` keyed by price) are
declared in headers that are not part of the sources at hand; following
the specification they are modelled as lists of level nodes kept in
in-order (ascending-price) sequence, with forward iteration ascending and
reverse iteration descending.
-/

namespace CppTrader

/-- `std::numeric_limits<uint64_t>::max()`. -/
def UINT64_MAX : Nat := 2 ^ 64 - 1

/-- `LevelType` from the matching engine: a level is either a bid-style or
an ask-style level. -/
inductive LevelType where
  | BID : LevelType
  | ASK : LevelType
deriving DecidableEq, Repr

/-- A price level node: the key fields used by `order_book.inl` (the level
type tag and the price; aggregated volumes and the order queue play no role
in the functions verified here). -/
structure LevelNode where
  LType : LevelType
  Price : Nat
deriving DecidableEq, Repr

/-- `Level::IsBid()`: the level carries the bid-style type tag. -/
def LevelNode.IsBid (l : LevelNode) : Bool := l.LType = LevelType.BID

/-- `OrderSide` of an order: buy or sell. -/
inductive OrderSide where
  | BUY : OrderSide
  | SELL : OrderSide
deriving DecidableEq, Repr

/-- An order: the fields used by `OrderBook::UpdateLastPrice`. -/
structure Order where
  Side : OrderSide
  Price : Nat
deriving DecidableEq, Repr

/-- `Order::IsBuy()`: the order side is buy. -/
def Order.IsBuy (o : Order) : Bool := o.Side = OrderSide.BUY

/-- The order book state of `OrderBook`: the six level indices (each the
in-order, ascending-price sequence of the underlying ordered container),
the six cached best pointers, and the four scalar reference prices.  Field
names follow the C++ members with the leading underscore dropped. -/
structure OrderBook where
  bids : List LevelNode
  asks : List LevelNode
  buy_stop : List LevelNode
  sell_stop : List LevelNode
  trailing_buy_stop : List LevelNode
  trailing_sell_stop : List LevelNode
  best_bid : Option LevelNode
  best_ask : Option LevelNode
  best_buy_stop : Option LevelNode
  best_sell_stop : Option LevelNode
  best_trailing_buy_stop : Option LevelNode
  best_trailing_sell_stop : Option LevelNode
  last_bid_price : Nat
  last_ask_price : Nat
  trailing_bid_price : Nat
  trailing_ask_price : Nat
deriving DecidableEq, Repr

/-- `OrderBook::OrderBook(const Symbol&)`: the freshly constructed book —
all containers empty, all cached best pointers null, last bid price `0`,
last ask price `UINT64_MAX`, trailing bid price `0`, trailing ask price
`UINT64_MAX`. -/
def OrderBook.new : OrderBook :=
  { bids := []
    asks := []
    buy_stop := []
    sell_stop := []
    trailing_buy_stop := []
    trailing_sell_stop := []
    best_bid := none
    best_ask := none
    best_buy_stop := none
    best_sell_stop := none
    best_trailing_buy_stop := none
    best_trailing_sell_stop := none
    last_bid_price := 0
    last_ask_price := UINT64_MAX
    trailing_bid_price := 0
    trailing_ask_price := UINT64_MAX }

/-- Modelled from the spec: `BinTreeAVL::find` on a `Levels` container
keyed by price (the comparator, declared in `level.h` which is not among
the sources, orders level nodes by price alone) — the first stored level
whose price equals the key, or an absent result. -/
def levelsFind (ls : List LevelNode) (price : Nat) : Option LevelNode :=
  ls.find? (fun l => l.Price == price)

/-- `OrderBook::GetBid(price)`: look up the bid level at the exact price,
null when absent. -/
def OrderBook.GetBid (b : OrderBook) (price : Nat) : Option LevelNode :=
  levelsFind b.bids price

/-- `OrderBook::GetAsk(price)`: look up the ask level at the exact price,
null when absent. -/
def OrderBook.GetAsk (b : OrderBook) (price : Nat) : Option LevelNode :=
  levelsFind b.asks price

/-- `OrderBook::GetBuyStopLevel(price)`: look up the buy-stop level at the
exact price (the probe key is ask-typed in the source), null when absent. -/
def OrderBook.GetBuyStopLevel (b : OrderBook) (price : Nat) : Option LevelNode :=
  levelsFind b.buy_stop price

/-- `OrderBook::GetSellStopLevel(price)`: look up the sell-stop level at
the exact price (the probe key is bid-typed in the source), null when
absent. -/
def OrderBook.GetSellStopLevel (b : OrderBook) (price : Nat) : Option LevelNode :=
  levelsFind b.sell_stop price

/-- `OrderBook::GetTrailingBuyStopLevel(price)`: look up the trailing
buy-stop level at the exact price, null when absent. -/
def OrderBook.GetTrailingBuyStopLevel (b : OrderBook) (price : Nat) : Option LevelNode :=
  levelsFind b.trailing_buy_stop price

/-- `OrderBook::GetTrailingSellStopLevel(price)`: look up the trailing
sell-stop level at the exact price, null when absent. -/
def OrderBook.GetTrailingSellStopLevel (b : OrderBook) (price : Nat) : Option LevelNode :=
  levelsFind b.trailing_sell_stop price

/-- `OrderBook::GetMarketPriceBid()`:
`max(_last_bid_price, _best_bid != nullptr ? _best_bid->Price : 0)`. -/
def OrderBook.GetMarketPriceBid (b : OrderBook) : Nat :=
  let last_price := b.last_bid_price
  let best_price := match b.best_bid with
    | some l => l.Price
    | none => 0
  max last_price best_price

/-- `OrderBook::GetMarketPriceAsk()`:
`min(_last_ask_price, _best_ask != nullptr ? _best_ask->Price : UINT64_MAX)`. -/
def OrderBook.GetMarketPriceAsk (b : OrderBook) : Nat :=
  let last_price := b.last_ask_price
  let best_price := match b.best_ask with
    | some l => l.Price
    | none => UINT64_MAX
  min last_price best_price

/-- `OrderBook::UpdateLastPrice(order)`: store the order price into
`_last_bid_price` when the order is a buy, else into `_last_ask_price`. -/
def OrderBook.UpdateLastPrice (b : OrderBook) (o : Order) : OrderBook :=
  if o.IsBuy then { b with last_bid_price := o.Price }
  else { b with last_ask_price := o.Price }

/-- Modelled from the spec: one increment of a forward iterator of the
`Levels` container (declared in `order_book.h`, not among the sources)
positioned at a stored node — the node following it in the container's
in-order (ascending-price) sequence, or absent at the end.  A reverse
iterator enumerates the same sequence backwards, so its increment is
`itNext` on the reversed sequence. -/
def itNext : List LevelNode → LevelNode → Option LevelNode
  | [], _ => none
  | a :: rest, l => if a = l then rest.head? else itNext rest l

/-- `OrderBook::GetNextLevel(level)`: for a bid level, advance a reverse
iterator of the bid index; otherwise advance a forward iterator of the ask
index. -/
def OrderBook.GetNextLevel (b : OrderBook) (level : LevelNode) : Option LevelNode :=
  if level.IsBid then itNext b.bids.reverse level
  else itNext b.asks level

/-- `OrderBook::GetNextStopLevel(level)`: for a bid-style level, advance a
reverse iterator of the sell-stop index; otherwise advance a forward
iterator of the buy-stop index. -/
def OrderBook.GetNextStopLevel (b : OrderBook) (level : LevelNode) : Option LevelNode :=
  if level.IsBid then itNext b.sell_stop.reverse level
  else itNext b.buy_stop level

/-- `OrderBook::GetNextTrailingStopLevel(level)`: for a bid-style level,
advance a reverse iterator of the trailing sell-stop index; otherwise
advance a forward iterator of the trailing buy-stop index. -/
def OrderBook.GetNextTrailingStopLevel (b : OrderBook) (level : LevelNode) : Option LevelNode :=
  if level.IsBid then itNext b.trailing_sell_stop.reverse level
  else itNext b.trailing_buy_stop level

/-- `r` is the next level after `l` in ascending-price traversal of the
index `ls`: the stored level of least price above `l.Price`, or absent
when no stored level lies above. -/
def isNextAscending (ls : List LevelNode) (l : LevelNode) : Option LevelNode → Prop
  | some m => m ∈ ls ∧ l.Price < m.Price ∧ ∀ x ∈ ls, l.Price < x.Price → m.Price ≤ x.Price
  | none => ∀ x ∈ ls, ¬ l.Price < x.Price

/-- `r` is the next level after `l` in descending-price traversal of the
index `ls`: the stored level of greatest price below `l.Price`, or absent
when no stored level lies below. -/
def isNextDescending (ls : List LevelNode) (l : LevelNode) : Option LevelNode → Prop
  | some m => m ∈ ls ∧ m.Price < l.Price ∧ ∀ x ∈ ls, x.Price < l.Price → x.Price ≤ m.Price
  | none => ∀ x ∈ ls, ¬ x.Price < l.Price

/-- Modelled from the spec: an order resting in the matching engine's
price-level indices (the matching engine itself is declared outside the
sources at hand) — its side, limit price and remaining quantity, plus its
id for cancellation. -/
structure BOrder where
  oid : Nat
  side : OrderSide
  price : Nat
  quantity : Nat
deriving DecidableEq, Repr

/-- Modelled from the spec: the matching engine's view of the two
price-level indices — the resting buy orders and the resting sell orders,
each list in arrival order within equal prices. -/
structure MBook where
  bids : List BOrder
  asks : List BOrder
deriving DecidableEq, Repr

/-- Modelled from the spec: the FIFO head of the best bid level — the
earliest-arrived order of maximal price on the bid side, absent when the
side is empty. -/
def bestBidOrder (bids : List BOrder) : Option BOrder :=
  bids.find? (fun o => bids.all (fun x => x.price ≤ o.price))

/-- Modelled from the spec: the FIFO head of the best ask level — the
earliest-arrived order of minimal price on the ask side, absent when the
side is empty. -/
def bestAskOrder (asks : List BOrder) : Option BOrder :=
  asks.find? (fun o => asks.all (fun x => o.price ≤ x.price))

/-- Modelled from the spec: the crossing condition — both a best bid and a
best ask exist and `best_bid.price >= best_ask.price`. -/
def crossedB (b : MBook) : Bool :=
  match bestBidOrder b.bids, bestAskOrder b.asks with
  | some ob, some oa => oa.price ≤ ob.price
  | _, _ => false

/-- Modelled from the spec: execute traded quantity `t` against order
`tgt` on one side — decrement its remaining quantity, removing the order
(and with it any now-empty level) when nothing remains. -/
def reduceAt : List BOrder → BOrder → Nat → List BOrder
  | [], _, _ => []
  | o :: rest, tgt, t =>
    if o = tgt then
      if o.quantity - t = 0 then rest
      else { o with quantity := o.quantity - t } :: rest
    else o :: reduceAt rest tgt t

/-- Modelled from the spec: one pairing of the matching loop — trade the
minimum of the two head orders' remaining quantities between the FIFO head
of the best bid level and the FIFO head of the best ask level. -/
def stepTrade (b : MBook) : MBook :=
  match bestBidOrder b.bids, bestAskOrder b.asks with
  | some ob, some oa =>
    { bids := reduceAt b.bids ob (min ob.quantity oa.quantity)
      asks := reduceAt b.asks oa (min ob.quantity oa.quantity) }
  | _, _ => b

/-- Modelled from the spec: the matching loop — while both best levels
exist and the crossing condition holds, pair the two FIFO heads; the loop
terminates because each pairing fully fills (and removes) at least one
order. -/
def matchLoop (b : MBook) : MBook :=
  if h : crossedB b = true then matchLoop (stepTrade b)
  else b
termination_by b.bids.length + b.asks.length
decreasing_by
  have hle : ∀ (l : List BOrder) (tgt : BOrder) (t : Nat),
      (reduceAt l tgt t).length ≤ l.length := by
    intro l tgt t
    induction l with
    | nil => simp [reduceAt]
    | cons o rest ih =>
      rw [reduceAt]
      by_cases ho : o = tgt
      · rw [if_pos ho]
        by_cases hz : o.quantity - t = 0
        · rw [if_pos hz]; exact Nat.le_succ _
        · rw [if_neg hz]; simp
      · rw [if_neg ho]
        simpa using Nat.succ_le_succ ih
  have hlt : ∀ (l : List BOrder) (tgt : BOrder) (t : Nat),
      tgt ∈ l → tgt.quantity ≤ t → (reduceAt l tgt t).length < l.length := by
    intro l tgt t hmem hq
    induction l with
    | nil => cases hmem
    | cons o rest ih =>
      rw [reduceAt]
      by_cases ho : o = tgt
      · rw [if_pos ho]
        have hz : o.quantity - t = 0 := by
          subst ho; omega
        rw [if_pos hz]
        simp
      · have hmem2 : tgt ∈ rest := by
          rcases List.mem_cons.mp hmem with hh | hh
          · exact absurd hh.symm ho
          · exact hh
        rw [if_neg ho]
        simpa using Nat.succ_lt_succ (ih hmem2)
  cases hob : bestBidOrder b.bids with
  | none => simp [crossedB, hob] at h
  | some ob =>
    cases hoa : bestAskOrder b.asks with
    | none => simp [crossedB, hob, hoa] at h
    | some oa =>
      have hbm : ob ∈ b.bids := List.mem_of_find?_eq_some hob
      have ham : oa ∈ b.asks := List.mem_of_find?_eq_some hoa
      simp only [stepTrade, hob, hoa]
      rcases Nat.le_total ob.quantity oa.quantity with hc | hc
      · have hq : ob.quantity ≤ min ob.quantity oa.quantity := le_min le_rfl hc
        exact Nat.add_lt_add_of_lt_of_le (hlt _ _ _ hbm hq) (hle _ _ _)
      · have hq : oa.quantity ≤ min ob.quantity oa.quantity := le_min hc le_rfl
        exact Nat.add_lt_add_of_le_of_lt (hle _ _ _) (hlt _ _ _ ham hq)

/-- Modelled from the spec: inserting a newly accepted live order at the
back of its side's arrival sequence (joining its price level in FIFO
position). -/
def insertOrder (b : MBook) (o : BOrder) : MBook :=
  match o.side with
  | OrderSide.BUY => { b with bids := b.bids ++ [o] }
  | OrderSide.SELL => { b with asks := b.asks ++ [o] }

/-- Modelled from the spec: the public `AddOrder` mutation — insert the
order, then run the match cycle to completion before returning. -/
def AddOrder (b : MBook) (o : BOrder) : MBook :=
  matchLoop (insertOrder b o)

/-- Modelled from the spec: the public `CancelOrder` mutation — remove the
order with the given id, then run the match cycle before returning. -/
def CancelOrder (b : MBook) (oid : Nat) : MBook :=
  matchLoop
    { bids := b.bids.filter (fun o => o.oid != oid)
      asks := b.asks.filter (fun o => o.oid != oid) }

/-- Modelled from the spec: an activation cascade — each activated stop
order is removed from its conditional index and re-enters the submission
path, i.e. is re-submitted through `AddOrder`, until no activation
remains. -/
def activationCascade (b : MBook) (activated : List BOrder) : MBook :=
  activated.foldl AddOrder b

/-- The no-crossing condition of the claim: whenever both a best bid and a
best ask exist, the best bid's price is strictly below the best ask's. -/
def Uncrossed (b : MBook) : Prop :=
  ∀ ob oa, bestBidOrder b.bids = some ob → bestAskOrder b.asks = some oa →
    ob.price < oa.price

/-- A small populated book used to witness the traversal theorems. -/
def testBook : OrderBook :=
  { OrderBook.new with
    bids := [⟨LevelType.BID, 10⟩, ⟨LevelType.BID, 20⟩]
    asks := [⟨LevelType.ASK, 30⟩, ⟨LevelType.ASK, 40⟩]
    buy_stop := [⟨LevelType.ASK, 105⟩, ⟨LevelType.ASK, 110⟩]
    sell_stop := [⟨LevelType.BID, 90⟩, ⟨LevelType.BID, 95⟩] }

/-- The specification's formula for the bid-side market price:
`max(last_bid_price, best_bid.price or 0)`. -/
def marketPriceBidSpec (b : OrderBook) : Nat :=
  max b.last_bid_price ((b.best_bid.map LevelNode.Price).getD 0)

/-- The specification's formula for the ask-side market price:
`min(last_ask_price, best_ask.price or +infinity)`, with `+infinity`
represented as `2 ^ 64 - 1`. -/
def marketPriceAskSpec (b : OrderBook) : Nat :=
  min b.last_ask_price ((b.best_ask.map LevelNode.Price).getD (2 ^ 64 - 1))

/-- The embedding of a call to the const method `GetBid`: result paired
with the receiver state after the call; the method reads only book fields
and writes none. -/
def OrderBook.callGetBid (b : OrderBook) (price : Nat) : Option LevelNode × OrderBook :=
  (b.GetBid price, b)

/-- The embedding of a call to the const method `GetAsk`. -/
def OrderBook.callGetAsk (b : OrderBook) (price : Nat) : Option LevelNode × OrderBook :=
  (b.GetAsk price, b)

/-- The embedding of a call to the const method `GetBuyStopLevel`. -/
def OrderBook.callGetBuyStopLevel (b : OrderBook) (price : Nat) : Option LevelNode × OrderBook :=
  (b.GetBuyStopLevel price, b)

/-- The embedding of a call to the const method `GetSellStopLevel`. -/
def OrderBook.callGetSellStopLevel (b : OrderBook) (price : Nat) : Option LevelNode × OrderBook :=
  (b.GetSellStopLevel price, b)

/-- The embedding of a call to the const method `GetTrailingBuyStopLevel`. -/
def OrderBook.callGetTrailingBuyStopLevel (b : OrderBook) (price : Nat) :
    Option LevelNode × OrderBook :=
  (b.GetTrailingBuyStopLevel price, b)

/-- The embedding of a call to the const method `GetTrailingSellStopLevel`. -/
def OrderBook.callGetTrailingSellStopLevel (b : OrderBook) (price : Nat) :
    Option LevelNode × OrderBook :=
  (b.GetTrailingSellStopLevel price, b)

/-- The embedding of a call to the const method `GetMarketPriceBid`. -/
def OrderBook.callGetMarketPriceBid (b : OrderBook) : Nat × OrderBook :=
  (b.GetMarketPriceBid, b)

/-- The embedding of a call to the const method `GetMarketPriceAsk`. -/
def OrderBook.callGetMarketPriceAsk (b : OrderBook) : Nat × OrderBook :=
  (b.GetMarketPriceAsk, b)

/-- A `Levels` lookup is `none` whenever no stored level has the probed
price. -/
theorem levelsFind_eq_none {ls : List LevelNode} {price : Nat}
    (h : ∀ l ∈ ls, l.Price ≠ price) : levelsFind ls price = none := by
  rw [levelsFind, List.find?_eq_none]
  intro l hl
  simpa using h l hl

/-- C1: for every book state, `GetMarketPriceBid()` returns the maximum of
the last traded bid-side price and the best bid level's price, an absent
best bid contributing `0`. -/
theorem C1_market_price_bid (b : OrderBook) :
    b.GetMarketPriceBid = marketPriceBidSpec b ∧
    b.GetMarketPriceBid = max b.last_bid_price ((b.best_bid.map LevelNode.Price).getD 0) := by
  constructor <;>
  cases h : b.best_bid <;>
    simp [OrderBook.GetMarketPriceBid, marketPriceBidSpec, h]


/-- C2: for every book state, `GetMarketPriceAsk()` returns the minimum of
the last traded ask-side price and the best ask level's price, an absent
best ask contributing `2 ^ 64 - 1` (the maximum 64-bit unsigned value,
standing in for `+infinity`). -/
theorem C2_market_price_ask (b : OrderBook) :
    b.GetMarketPriceAsk = marketPriceAskSpec b ∧
    b.GetMarketPriceAsk
      = min b.last_ask_price ((b.best_ask.map LevelNode.Price).getD (2 ^ 64 - 1)) := by
  constructor <;>
  cases h : b.best_ask <;>
    simp [OrderBook.GetMarketPriceAsk, marketPriceAskSpec, UINT64_MAX, h]

/-- C4: `UpdateLastPrice(order)` sets the bid-side last price to the
order's price when the order is a buy and the ask-side last price when it
is a sell; in each case every other field of the book is unchanged (the
record-update equality fixes all remaining fields to those of `b`). -/
theorem C4_update_last_price (b : OrderBook) (o : Order) :
    (o.IsBuy = true → b.UpdateLastPrice o = { b with last_bid_price := o.Price }) ∧
    (o.IsBuy = false → b.UpdateLastPrice o = { b with last_ask_price := o.Price }) := by
  constructor <;> intro h <;> simp [OrderBook.UpdateLastPrice, h]

/-- Witness for C4 at concrete inputs: a buy order at price 42 updates the
bid-side last price of a fresh book, a sell order at price 7 the ask-side
last price. -/
theorem C4_update_last_price_witness :
    OrderBook.new.UpdateLastPrice ⟨OrderSide.BUY, 42⟩
        = { OrderBook.new with last_bid_price := 42 } ∧
    OrderBook.new.UpdateLastPrice ⟨OrderSide.SELL, 7⟩
        = { OrderBook.new with last_ask_price := 7 } :=
  ⟨(C4_update_last_price OrderBook.new ⟨OrderSide.BUY, 42⟩).1 (by decide),
   (C4_update_last_price OrderBook.new ⟨OrderSide.SELL, 7⟩).2 (by decide)⟩

/-- C7: each of the six exact-price queries returns the explicit absent
result `none` whenever no level with the probed price exists in the
corresponding index; all six are total functions into `Option`, so no
error is ever signalled. -/
theorem C7_absent_price_queries (b : OrderBook) (price : Nat) :
    ((∀ l ∈ b.bids, l.Price ≠ price) → b.GetBid price = none) ∧
    ((∀ l ∈ b.asks, l.Price ≠ price) → b.GetAsk price = none) ∧
    ((∀ l ∈ b.buy_stop, l.Price ≠ price) → b.GetBuyStopLevel price = none) ∧
    ((∀ l ∈ b.sell_stop, l.Price ≠ price) → b.GetSellStopLevel price = none) ∧
    ((∀ l ∈ b.trailing_buy_stop, l.Price ≠ price) → b.GetTrailingBuyStopLevel price = none) ∧
    ((∀ l ∈ b.trailing_sell_stop, l.Price ≠ price) → b.GetTrailingSellStopLevel price = none) :=
  ⟨fun h => levelsFind_eq_none h, fun h => levelsFind_eq_none h,
   fun h => levelsFind_eq_none h, fun h => levelsFind_eq_none h,
   fun h => levelsFind_eq_none h, fun h => levelsFind_eq_none h⟩

/-- Witness for C7 on the empty book at price 5: all six queries return
`none`. -/
theorem C7_absent_price_queries_witness :
    OrderBook.new.GetBid 5 = none ∧
    OrderBook.new.GetAsk 5 = none ∧
    OrderBook.new.GetBuyStopLevel 5 = none ∧
    OrderBook.new.GetSellStopLevel 5 = none ∧
    OrderBook.new.GetTrailingBuyStopLevel 5 = none ∧
    OrderBook.new.GetTrailingSellStopLevel 5 = none :=
  ⟨(C7_absent_price_queries OrderBook.new 5).1 (by simp [OrderBook.new]),
   (C7_absent_price_queries OrderBook.new 5).2.1 (by simp [OrderBook.new]),
   (C7_absent_price_queries OrderBook.new 5).2.2.1 (by simp [OrderBook.new]),
   (C7_absent_price_queries OrderBook.new 5).2.2.2.1 (by simp [OrderBook.new]),
   (C7_absent_price_queries OrderBook.new 5).2.2.2.2.1 (by simp [OrderBook.new]),
   (C7_absent_price_queries OrderBook.new 5).2.2.2.2.2 (by simp [OrderBook.new])⟩

/-- C8: the freshly constructed book holds the no-trade sentinels (last
bid price `0`, last ask price `2 ^ 64 - 1`), all six cached best pointers
are absent, and consequently `GetMarketPriceBid()` returns `0` and
`GetMarketPriceAsk()` returns `2 ^ 64 - 1`. -/
theorem C8_fresh_book :
    OrderBook.new.last_bid_price = 0 ∧
    OrderBook.new.last_ask_price = 2 ^ 64 - 1 ∧
    OrderBook.new.best_bid = none ∧
    OrderBook.new.best_ask = none ∧
    OrderBook.new.best_buy_stop = none ∧
    OrderBook.new.best_sell_stop = none ∧
    OrderBook.new.best_trailing_buy_stop = none ∧
    OrderBook.new.best_trailing_sell_stop = none ∧
    OrderBook.new.GetMarketPriceBid = 0 ∧
    OrderBook.new.GetMarketPriceAsk = 2 ^ 64 - 1 := by
  refine ⟨rfl, rfl, rfl, rfl, rfl, rfl, rfl, rfl, rfl, ?_⟩
  simp [OrderBook.GetMarketPriceAsk, OrderBook.new, UINT64_MAX]

/-- C9: every read-only query is state-preserving and deterministic — the
book state after the call is the receiver unchanged, and a repeated call
with the same argument on the post-call state returns the same result. -/
theorem C9_queries_pure (b : OrderBook) (price : Nat) :
    ((b.callGetBid price).2 = b ∧
      ((b.callGetBid price).2.callGetBid price).1 = (b.callGetBid price).1) ∧
    ((b.callGetAsk price).2 = b ∧
      ((b.callGetAsk price).2.callGetAsk price).1 = (b.callGetAsk price).1) ∧
    ((b.callGetBuyStopLevel price).2 = b ∧
      ((b.callGetBuyStopLevel price).2.callGetBuyStopLevel price).1
        = (b.callGetBuyStopLevel price).1) ∧
    ((b.callGetSellStopLevel price).2 = b ∧
      ((b.callGetSellStopLevel price).2.callGetSellStopLevel price).1
        = (b.callGetSellStopLevel price).1) ∧
    ((b.callGetTrailingBuyStopLevel price).2 = b ∧
      ((b.callGetTrailingBuyStopLevel price).2.callGetTrailingBuyStopLevel price).1
        = (b.callGetTrailingBuyStopLevel price).1) ∧
    ((b.callGetTrailingSellStopLevel price).2 = b ∧
      ((b.callGetTrailingSellStopLevel price).2.callGetTrailingSellStopLevel price).1
        = (b.callGetTrailingSellStopLevel price).1) ∧
    (b.callGetMarketPriceBid.2 = b ∧
      b.callGetMarketPriceBid.2.callGetMarketPriceBid.1 = b.callGetMarketPriceBid.1) ∧
    (b.callGetMarketPriceAsk.2 = b ∧
      b.callGetMarketPriceAsk.2.callGetMarketPriceAsk.1 = b.callGetMarketPriceAsk.1) :=
  ⟨⟨rfl, rfl⟩, ⟨rfl, rfl⟩, ⟨rfl, rfl⟩, ⟨rfl, rfl⟩,
   ⟨rfl, rfl⟩, ⟨rfl, rfl⟩, ⟨rfl, rfl⟩, ⟨rfl, rfl⟩⟩

/-- C10: the book carries a trailing reference price pair distinct from
the last-trade fields: on construction it holds the same sentinels (`0`
bid side, `2 ^ 64 - 1` ask side), the market-price queries are unaffected
by any change to the trailing pair, and `UpdateLastPrice` never touches
the trailing pair. -/
theorem C10_trailing_prices :
    OrderBook.new.trailing_bid_price = 0 ∧
    OrderBook.new.trailing_ask_price = 2 ^ 64 - 1 ∧
    (∀ (b : OrderBook) (p q : Nat),
      ({ b with trailing_bid_price := p, trailing_ask_price := q } : OrderBook).GetMarketPriceBid
          = b.GetMarketPriceBid ∧
      ({ b with trailing_bid_price := p, trailing_ask_price := q } : OrderBook).GetMarketPriceAsk
          = b.GetMarketPriceAsk) ∧
    (∀ (b : OrderBook) (o : Order),
      (b.UpdateLastPrice o).trailing_bid_price = b.trailing_bid_price ∧
      (b.UpdateLastPrice o).trailing_ask_price = b.trailing_ask_price) := by
  refine ⟨rfl, rfl, fun b p q => ⟨rfl, rfl⟩, fun b o => ?_⟩
  simp only [OrderBook.UpdateLastPrice]
  split <;> exact ⟨rfl, rfl⟩

/-- Advancing a forward iterator from a member of a strictly
ascending-price index yields the next level in ascending order. -/
theorem itNext_ascending {ls : List LevelNode} {l : LevelNode}
    (hs : List.Pairwise (fun a c => a.Price < c.Price) ls) (hl : l ∈ ls) :
    isNextAscending ls l (itNext ls l) := by
  induction ls with
  | nil => cases hl
  | cons a rest ih =>
    rw [List.pairwise_cons] at hs
    by_cases hal : a = l
    · subst hal
      rw [itNext, if_pos rfl]
      cases rest with
      | nil =>
        simp only [List.head?, isNextAscending]
        intro x hx
        rcases List.mem_cons.mp hx with h | h
        · subst h; exact lt_irrefl _
        · cases h
      | cons m rest2 =>
        simp only [List.head?, isNextAscending]
        refine ⟨List.mem_cons_of_mem _ (List.mem_cons_self _ _), hs.1 m (List.mem_cons_self _ _), ?_⟩
        intro x hx hlt
        rcases List.mem_cons.mp hx with h | hx2
        · subst h; exact absurd hlt (lt_irrefl _)
        rcases List.mem_cons.mp hx2 with h | h3
        · subst h; exact le_refl _
        · exact le_of_lt ((List.pairwise_cons.mp hs.2).1 x h3)
    · have hlr : l ∈ rest := by
        rcases List.mem_cons.mp hl with h | h
        · exact absurd h.symm hal
        · exact h
      rw [itNext, if_neg hal]
      have ihr := ih hs.2 hlr
      cases hres : itNext rest l with
      | none =>
        rw [hres] at ihr
        simp only [isNextAscending] at ihr ⊢
        intro x hx
        rcases List.mem_cons.mp hx with h | h
        · subst h; exact Nat.lt_asymm (hs.1 l hlr)
        · exact ihr x h
      | some m =>
        rw [hres] at ihr
        simp only [isNextAscending] at ihr ⊢
        obtain ⟨hm, hlm, hmin⟩ := ihr
        refine ⟨List.mem_cons_of_mem a hm, hlm, ?_⟩
        intro x hx hlt
        rcases List.mem_cons.mp hx with h | h
        · subst h; exact absurd hlt (Nat.lt_asymm (hs.1 l hlr))
        · exact hmin x h hlt

/-- Advancing a forward iterator from a member of a strictly
descending-price sequence yields the next level in descending order. -/
theorem itNext_descending {ls : List LevelNode} {l : LevelNode}
    (hs : List.Pairwise (fun a c => c.Price < a.Price) ls) (hl : l ∈ ls) :
    isNextDescending ls l (itNext ls l) := by
  induction ls with
  | nil => cases hl
  | cons a rest ih =>
    rw [List.pairwise_cons] at hs
    by_cases hal : a = l
    · subst hal
      rw [itNext, if_pos rfl]
      cases rest with
      | nil =>
        simp only [List.head?, isNextDescending]
        intro x hx
        rcases List.mem_cons.mp hx with h | h
        · subst h; exact lt_irrefl _
        · cases h
      | cons m rest2 =>
        simp only [List.head?, isNextDescending]
        refine ⟨List.mem_cons_of_mem _ (List.mem_cons_self _ _), hs.1 m (List.mem_cons_self _ _), ?_⟩
        intro x hx hlt
        rcases List.mem_cons.mp hx with h | hx2
        · subst h; exact absurd hlt (lt_irrefl _)
        rcases List.mem_cons.mp hx2 with h | h3
        · subst h; exact le_refl _
        · exact le_of_lt ((List.pairwise_cons.mp hs.2).1 x h3)
    · have hlr : l ∈ rest := by
        rcases List.mem_cons.mp hl with h | h
        · exact absurd h.symm hal
        · exact h
      rw [itNext, if_neg hal]
      have ihr := ih hs.2 hlr
      cases hres : itNext rest l with
      | none =>
        rw [hres] at ihr
        simp only [isNextDescending] at ihr ⊢
        intro x hx
        rcases List.mem_cons.mp hx with h | h
        · subst h; exact Nat.lt_asymm (hs.1 l hlr)
        · exact ihr x h
      | some m =>
        rw [hres] at ihr
        simp only [isNextDescending] at ihr ⊢
        obtain ⟨hm, hlm, hmin⟩ := ihr
        refine ⟨List.mem_cons_of_mem a hm, hlm, ?_⟩
        intro x hx hlt
        rcases List.mem_cons.mp hx with h | h
        · subst h; exact absurd hlt (Nat.lt_asymm (hs.1 l hlr))
        · exact hmin x h hlt

/-- A next-in-descending-order characterisation over a reversed index
transfers to the index itself (the two hold the same levels). -/
theorem isNextDescending_of_reverse {ls : List LevelNode} {l : LevelNode} {r : Option LevelNode}
    (h : isNextDescending ls.reverse l r) : isNextDescending ls l r := by
  cases r with
  | none =>
    simp only [isNextDescending] at h ⊢
    intro x hx
    exact h x (List.mem_reverse.mpr hx)
  | some m =>
    simp only [isNextDescending] at h ⊢
    exact ⟨List.mem_reverse.mp h.1, h.2.1, fun x hx => h.2.2 x (List.mem_reverse.mpr hx)⟩

/-- C5: for a level present in its index, `GetNextLevel` returns the next
level in best-to-worst order for its side — the adjacent lower-priced bid
level (descending, by reverse traversal of the ascending bid index) or the
adjacent higher-priced ask level (ascending, by forward traversal). -/
theorem C5_next_level (b : OrderBook) (level : LevelNode)
    (hb : List.Pairwise (fun a c => a.Price < c.Price) b.bids)
    (ha : List.Pairwise (fun a c => a.Price < c.Price) b.asks) :
    (level.IsBid = true → level ∈ b.bids →
      isNextDescending b.bids level (b.GetNextLevel level)) ∧
    (level.IsBid = false → level ∈ b.asks →
      isNextAscending b.asks level (b.GetNextLevel level)) := by
  constructor
  · intro hbid hmem
    have hrev : List.Pairwise (fun a c => c.Price < a.Price) b.bids.reverse :=
      List.pairwise_reverse.mpr hb
    have h := itNext_descending hrev (List.mem_reverse.mpr hmem)
    rw [OrderBook.GetNextLevel, if_pos hbid]
    exact isNextDescending_of_reverse h
  · intro hask hmem
    rw [OrderBook.GetNextLevel, if_neg (by simp [hask])]
    exact itNext_ascending ha hmem

/-- Witness for C5 on `testBook`: from the best bid (price 20) the next
bid level is price 10; from the best ask (price 30) the next ask level is
price 40. -/
theorem C5_next_level_witness :
    isNextDescending testBook.bids ⟨LevelType.BID, 20⟩
      (testBook.GetNextLevel ⟨LevelType.BID, 20⟩) ∧
    isNextAscending testBook.asks ⟨LevelType.ASK, 30⟩
      (testBook.GetNextLevel ⟨LevelType.ASK, 30⟩) :=
  ⟨(C5_next_level testBook ⟨LevelType.BID, 20⟩ (by decide) (by decide)).1
      (by decide) (by decide),
   (C5_next_level testBook ⟨LevelType.ASK, 30⟩ (by decide) (by decide)).2
      (by decide) (by decide)⟩

/-- C6: the stop indices encode activation direction by asymmetric
traversal — `GetNextStopLevel` advances forward (ascending price) through
the buy-stop index for an ask-style level, and in reverse (descending
price) through the sell-stop index for a bid-style level, mirroring the
price-level traversal. -/
theorem C6_next_stop_level (b : OrderBook) (level : LevelNode)
    (hbs : List.Pairwise (fun a c => a.Price < c.Price) b.buy_stop)
    (hss : List.Pairwise (fun a c => a.Price < c.Price) b.sell_stop) :
    (level.IsBid = true → level ∈ b.sell_stop →
      isNextDescending b.sell_stop level (b.GetNextStopLevel level)) ∧
    (level.IsBid = false → level ∈ b.buy_stop →
      isNextAscending b.buy_stop level (b.GetNextStopLevel level)) := by
  constructor
  · intro hbid hmem
    have hrev : List.Pairwise (fun a c => c.Price < a.Price) b.sell_stop.reverse :=
      List.pairwise_reverse.mpr hss
    have h := itNext_descending hrev (List.mem_reverse.mpr hmem)
    rw [OrderBook.GetNextStopLevel, if_pos hbid]
    exact isNextDescending_of_reverse h
  · intro hask hmem
    rw [OrderBook.GetNextStopLevel, if_neg (by simp [hask])]
    exact itNext_ascending hbs hmem

/-- Witness for C6 on `testBook`: from the sell-stop level at price 95 the
next sell-stop level is price 90 (descending); from the buy-stop level at
price 105 the next buy-stop level is price 110 (ascending). -/
theorem C6_next_stop_level_witness :
    isNextDescending testBook.sell_stop ⟨LevelType.BID, 95⟩
      (testBook.GetNextStopLevel ⟨LevelType.BID, 95⟩) ∧
    isNextAscending testBook.buy_stop ⟨LevelType.ASK, 105⟩
      (testBook.GetNextStopLevel ⟨LevelType.ASK, 105⟩) :=
  ⟨(C6_next_stop_level testBook ⟨LevelType.BID, 95⟩ (by decide) (by decide)).1
      (by decide) (by decide),
   (C6_next_stop_level testBook ⟨LevelType.ASK, 105⟩ (by decide) (by decide)).2
      (by decide) (by decide)⟩

/-- The matching loop runs until the crossing condition fails. -/
theorem matchLoop_not_crossed (b : MBook) : crossedB (matchLoop b) = false := by
  induction b using matchLoop.induct with
  | case1 b h ih =>
    rw [matchLoop, dif_pos h]
    exact ih
  | case2 b h =>
    rw [matchLoop, dif_neg h]
    simpa using h

/-- The state left by the matching loop is uncrossed: if both best orders
exist, the best bid price is strictly below the best ask price. -/
theorem matchLoop_uncrossed (b : MBook) : Uncrossed (matchLoop b) := by
  intro ob oa hob hoa
  have h := matchLoop_not_crossed b
  simp only [crossedB, hob, hoa] at h
  simp at h
  omega

/-- An activation cascade starting from an uncrossed book leaves the book
uncrossed: each re-submission ends in a completed matching loop. -/
theorem activationCascade_uncrossed (activated : List BOrder) (b : MBook)
    (hb : Uncrossed b) : Uncrossed (activationCascade b activated) := by
  induction activated generalizing b with
  | nil => exact hb
  | cons a rest ih =>
    have hstep : activationCascade b (a :: rest) = activationCascade (AddOrder b a) rest := rfl
    rw [hstep]
    exact ih (AddOrder b a) (matchLoop_uncrossed _)

/-- C3: after any completed public mutation — an order submission, a
cancellation, or a submission followed by any activation cascade — no
crossing condition remains: whenever both a best bid and a best ask exist,
the best bid's price is strictly below the best ask's price. -/
theorem C3_no_crossing_after_mutation :
    (∀ (b : MBook) (o : BOrder), Uncrossed (AddOrder b o)) ∧
    (∀ (b : MBook) (oid : Nat), Uncrossed (CancelOrder b oid)) ∧
    (∀ (b : MBook) (o : BOrder) (activated : List BOrder),
      Uncrossed (activationCascade (AddOrder b o) activated)) :=
  ⟨fun b o => matchLoop_uncrossed (insertOrder b o),
   fun b oid => matchLoop_uncrossed _,
   fun b o activated =>
     activationCascade_uncrossed activated (AddOrder b o)
       (matchLoop_uncrossed (insertOrder b o))⟩

end CppTrader
